import Mathlib

/-!
Verification of the NetCopy repository: a checksum registry service
(`Netcopy/checksum_srv.py`), a file-transfer sender (`netcopy_cli.py`) and a
file-transfer receiver (`netcopy_srv.py`).

Python strings are embedded as `List Char` (`PyStr`), byte strings as
`List Nat`, wall-clock instants (`time.time()` floats) as rationals `ℚ`, and
the server's in-memory `dict` as an association list with Python `dict`
update/lookup/pop semantics.
-/

set_option autoImplicit false

/-- Embedding of a Python `str`: a sequence of unicode characters. -/
abbrev PyStr := List Char

/-- The characters removed by Python's `str.strip()` with no argument, for the
ASCII range (space, tab, newline, carriage return, vertical tab, form feed).
All protocol commands are ASCII, so wider Unicode whitespace never arises. -/
def isPySpace (c : Char) : Bool :=
  c.toNat = 32 || c.toNat = 9 || c.toNat = 10 || c.toNat = 13 ||
    c.toNat = 11 || c.toNat = 12

/-- Embedding of `data.strip()`: remove leading and trailing whitespace. -/
def strip (s : PyStr) : PyStr :=
  ((s.dropWhile isPySpace).reverse.dropWhile isPySpace).reverse

/-- Embedding of `str.split("|")`: split on every occurrence of `'|'`.
Like Python, the result is never empty and splitting the empty string
gives `[[]]`. -/
def splitPipe : PyStr → List PyStr
  | [] => [[]]
  | c :: rest =>
    match splitPipe rest with
    | [] => [[]]
    | f :: fs => if c = '|' then [] :: f :: fs else (c :: f) :: fs

/-- The decimal digit character for `d < 10`. -/
def digitChar (d : Nat) : Char := Char.ofNat (48 + d)

/-- Fuel-driven accumulator loop producing the decimal digits of `n` in
front of `acc`; the fuel is an upper bound on `n` so the loop always has
enough steps. -/
def natToDigitsAux : Nat → Nat → PyStr → PyStr
  | 0, _, acc => acc
  | fuel + 1, n, acc =>
    if n = 0 then acc else natToDigitsAux fuel (n / 10) (digitChar (n % 10) :: acc)

/-- Embedding of Python `str(n)` for a natural number: its decimal digits. -/
def natToDigits (n : Nat) : PyStr :=
  if n = 0 then ['0'] else natToDigitsAux n n []

/-- Parse a nonempty all-decimal-digit string to a natural number. -/
def parseDigits (s : PyStr) : Option Nat :=
  if s ≠ [] ∧ s.all (fun c => decide (48 ≤ c.toNat ∧ c.toNat ≤ 57)) then
    some (s.foldl (fun a c => 10 * a + (c.toNat - 48)) 0)
  else none

/-- Embedding of Python `int(s)` on a string: optional surrounding whitespace,
an optional sign, then decimal digits; anything else raises `ValueError`,
modelled as `none`. (Python's digit-group underscores and non-ASCII decimal
digits are not used anywhere in this system.) -/
def toIntOpt (s : PyStr) : Option Int :=
  if (strip s).head? = some '+' then (parseDigits (strip s).tail).map (fun n => (n : Int))
  else if (strip s).head? = some '-' then (parseDigits (strip s).tail).map (fun n => -(n : Int))
  else (parseDigits (strip s)).map (fun n => (n : Int))

/-- Embedding of `data.split("|", 1)` when `"|" in data`: the text before the
first `'|'` and the text after it. -/
def splitFirstPipe : PyStr → PyStr × PyStr
  | [] => ([], [])
  | c :: rest =>
    if c = '|' then ([], rest)
    else
      let p := splitFirstPipe rest
      (c :: p.1, p.2)

namespace checksum_srv

/-- One value of `checksums_store`: `(expiry_time, checksum)`. -/
structure StoreEntry where
  expiry : ℚ
  checksum : PyStr
deriving DecidableEq, Repr

/-- Embedding of the `checksums_store: Dict[str, Tuple[float, str]]`
as an association list with at most one binding per key. -/
abbrev ChecksumStore := List (PyStr × StoreEntry)

/-- Python `d[k] = v`: replace the existing binding in place, else append. -/
def dictSet : ChecksumStore → PyStr → StoreEntry → ChecksumStore
  | [], k, v => [(k, v)]
  | (k', v') :: rest, k, v =>
    if k' = k then (k', v) :: rest else (k', v') :: dictSet rest k v

/-- Python `d.get(k)`: the bound value, or `None`. -/
def dictGet : ChecksumStore → PyStr → Option StoreEntry
  | [], _ => none
  | (k', v') :: rest, k => if k' = k then some v' else dictGet rest k

/-- Python `d.pop(k, None)`: remove the binding for `k` if present. -/
def dictPop : ChecksumStore → PyStr → ChecksumStore
  | [], _ => []
  | (k', v') :: rest, k => if k' = k then rest else (k', v') :: dictPop rest k

/-- The `b"OK"` response. -/
def okResp : PyStr := ['O', 'K']

/-- The `b"ERR"` response. -/
def errResp : PyStr := ['E', 'R', 'R']

/-- The `b"0|"` not-found/expired response. -/
def notFoundResp : PyStr := ['0', '|']

/-- The `"BE"` command word. -/
def beCmd : PyStr := ['B', 'E']

/-- The `"KI"` command word. -/
def kiCmd : PyStr := ['K', 'I']

/-- Embedding of `ChecksumServer._handle_store_command`.  `parts` is the
split command line; a five-field list is unpacked, `int(expiry)` is taken
(a `ValueError` yields `ERR` with the store untouched), and on success the
entry `(time.time() + int(expiry), checksum)` is written.  `now` is the
value of `time.time()` during the call. -/
def handle_store_command (store : ChecksumStore) (now : ℚ) (parts : List PyStr) :
    ChecksumStore × PyStr :=
  match parts with
  | [_, file_id, expiry, _, checksum] =>
    match toIntOpt expiry with
    | some ttl => (dictSet store file_id ⟨now + (ttl : ℚ), checksum⟩, okResp)
    | none => (store, errResp)
  | _ => (store, errResp)

/-- Embedding of `ChecksumServer._handle_retrieve_command`. A missing entry
answers `0|`; an entry with `now > expiry_time` is popped and answers `0|`;
otherwise the response is `f"{len(checksum)}|{checksum}"`. -/
def handle_retrieve_command (store : ChecksumStore) (now : ℚ) (parts : List PyStr) :
    ChecksumStore × PyStr :=
  match parts with
  | [_, file_id] =>
    match dictGet store file_id with
    | none => (store, notFoundResp)
    | some entry =>
      if now > entry.expiry then (dictPop store file_id, notFoundResp)
      else (store, natToDigits entry.checksum.length ++ '|' :: entry.checksum)
  | _ => (store, errResp)

/-- Embedding of `ChecksumServer.process_data`: strip the line, split on
`"|"`, dispatch `BE` (five fields) and `KI` (two fields), and answer `ERR`
for everything else.  The `if not parts` branch of the source is the
empty-list case (unreachable, since `split` never returns an empty list). -/
def process_data (store : ChecksumStore) (now : ℚ) (data : PyStr) :
    ChecksumStore × PyStr :=
  let parts := splitPipe (strip data)
  match parts with
  | [] => (store, errResp)
  | command :: _ =>
    if command = beCmd ∧ parts.length = 5 then
      handle_store_command store now parts
    else if command = kiCmd ∧ parts.length = 2 then
      handle_retrieve_command store now parts
    else
      (store, errResp)

/-- The per-connection loop of `_handle_client_data` applied to a sequence of
complete decoded lines, each processed at its own clock reading; responses
are collected in order. -/
def processLines (store : ChecksumStore) :
    List (ℚ × PyStr) → ChecksumStore × List PyStr
  | [] => (store, [])
  | (now, line) :: rest =>
    let step := process_data store now line
    let next := processLines step.1 rest
    (next.1, step.2 :: next.2)

/-- Whether a byte is a UTF-8 continuation byte (`0x80`–`0xBF`). -/
def isCont (b : Nat) : Bool := decide (128 ≤ b ∧ b ≤ 191)

/-- Valid second-byte range of a three-byte UTF-8 sequence headed by `b1`
(excludes overlong encodings and surrogates, as Python's strict decoder does). -/
def mid2Ok (b1 b2 : Nat) : Bool :=
  if b1 = 224 then decide (160 ≤ b2 ∧ b2 ≤ 191)
  else if b1 = 237 then decide (128 ≤ b2 ∧ b2 ≤ 159)
  else isCont b2

/-- Valid second-byte range of a four-byte UTF-8 sequence headed by `b1`
(excludes overlong encodings and code points above `0x10FFFF`). -/
def mid3Ok (b1 b2 : Nat) : Bool :=
  if b1 = 240 then decide (144 ≤ b2 ∧ b2 ≤ 191)
  else if b1 = 244 then decide (128 ≤ b2 ∧ b2 ≤ 143)
  else isCont b2

/-- Embedding of `bytes.decode()` with strict error handling: standard UTF-8
decoding, `none` on any invalid sequence (modelling `UnicodeDecodeError`). -/
def decodeUtf8 : List Nat → Option PyStr
  | [] => some []
  | b1 :: rest =>
    if b1 ≤ 127 then
      (decodeUtf8 rest).map (fun cs => Char.ofNat b1 :: cs)
    else if 194 ≤ b1 ∧ b1 ≤ 223 then
      match rest with
      | b2 :: rest2 =>
        if isCont b2 then
          (decodeUtf8 rest2).map
            (fun cs => Char.ofNat ((b1 - 192) * 64 + (b2 - 128)) :: cs)
        else none
      | [] => none
    else if 224 ≤ b1 ∧ b1 ≤ 239 then
      match rest with
      | b2 :: b3 :: rest3 =>
        if mid2Ok b1 b2 && isCont b3 then
          (decodeUtf8 rest3).map
            (fun cs =>
              Char.ofNat ((b1 - 224) * 4096 + (b2 - 128) * 64 + (b3 - 128)) :: cs)
        else none
      | _ => none
    else if 240 ≤ b1 ∧ b1 ≤ 244 then
      match rest with
      | b2 :: b3 :: b4 :: rest4 =>
        if mid3Ok b1 b2 && isCont b3 && isCont b4 then
          (decodeUtf8 rest4).map
            (fun cs =>
              Char.ofNat ((b1 - 240) * 262144 + (b2 - 128) * 4096 +
                (b3 - 128) * 64 + (b4 - 128)) :: cs)
        else none
      | _ => none
    else none

/-- One iteration of the line loop in `_handle_client_data`:
`response = self.process_data(line.decode())`.  When `line.decode()` raises
`UnicodeDecodeError`, the exception propagates to the surrounding handler,
which closes the connection without sending any response — modelled as
`none`. -/
def handle_line (store : ChecksumStore) (now : ℚ) (line : List Nat) :
    Option (ChecksumStore × PyStr) :=
  (decodeUtf8 line).map (fun s => process_data store now s)

end checksum_srv

namespace hashlib

/-- Reduction modulo `2 ^ 32`, the word size of MD5 arithmetic. -/
def w32 (n : Nat) : Nat := n % 4294967296

/-- 32-bit left rotation of a word `x < 2 ^ 32` by `c` bits. -/
def rotl32 (x c : Nat) : Nat := ((x <<< c) % 4294967296) ||| (x >>> (32 - c))

/-- 32-bit bitwise complement. -/
def bnot32 (x : Nat) : Nat := x ^^^ 4294967295

/-- The per-operation left-rotation amounts of MD5 (RFC 1321). -/
def md5_s : List Nat :=
  [7, 12, 17, 22, 7, 12, 17, 22, 7, 12, 17, 22, 7, 12, 17, 22,
   5, 9, 14, 20, 5, 9, 14, 20, 5, 9, 14, 20, 5, 9, 14, 20,
   4, 11, 16, 23, 4, 11, 16, 23, 4, 11, 16, 23, 4, 11, 16, 23,
   6, 10, 15, 21, 6, 10, 15, 21, 6, 10, 15, 21, 6, 10, 15, 21]

/-- The 64 sine-derived constants of MD5 (RFC 1321). -/
def md5_k : List Nat :=
  [0xd76aa478, 0xe8c7b756, 0x242070db, 0xc1bdceee,
   0xf57c0faf, 0x4787c62a, 0xa8304613, 0xfd469501,
   0x698098d8, 0x8b44f7af, 0xffff5bb1, 0x895cd7be,
   0x6b901122, 0xfd987193, 0xa679438e, 0x49b40821,
   0xf61e2562, 0xc040b340, 0x265e5a51, 0xe9b6c7aa,
   0xd62f105d, 0x02441453, 0xd8a1e681, 0xe7d3fbc8,
   0x21e1cde6, 0xc33707d6, 0xf4d50d87, 0x455a14ed,
   0xa9e3e905, 0xfcefa3f8, 0x676f02d9, 0x8d2a4c8a,
   0xfffa3942, 0x8771f681, 0x6d9d6122, 0xfde5380c,
   0xa4beea44, 0x4bdecfa9, 0xf6bb4b60, 0xbebfbc70,
   0x289b7ec6, 0xeaa127fa, 0xd4ef3085, 0x04881d05,
   0xd9d4d039, 0xe6db99e5, 0x1fa27cf8, 0xc4ac5665,
   0xf4292244, 0x432aff97, 0xab9423a7, 0xfc93a039,
   0x655b59c3, 0x8f0ccc92, 0xffeff47d, 0x85845dd1,
   0x6fa87e4f, 0xfe2ce6e0, 0xa3014314, 0x4e0811a1,
   0xf7537e82, 0xbd3af235, 0x2ad7d2bb, 0xeb86d391]

/-- The four 32-bit registers of the MD5 compression function. -/
structure MD5State where
  a : Nat
  b : Nat
  c : Nat
  d : Nat
deriving DecidableEq, Repr

/-- The MD5 initialisation vector. -/
def md5Init : MD5State := ⟨0x67452301, 0xefcdab89, 0x98badcfe, 0x10325476⟩

/-- The `j`-th little-endian 32-bit word of a 64-byte block. -/
def word32LE (block : List Nat) (j : Nat) : Nat :=
  block.getD (4 * j) 0 + 256 * block.getD (4 * j + 1) 0 +
    65536 * block.getD (4 * j + 2) 0 + 16777216 * block.getD (4 * j + 3) 0

/-- The round function of operation `i`. -/
def md5F (i b c d : Nat) : Nat :=
  if i < 16 then (b &&& c) ||| (bnot32 b &&& d)
  else if i < 32 then (d &&& b) ||| (bnot32 d &&& c)
  else if i < 48 then b ^^^ c ^^^ d
  else c ^^^ (b ||| bnot32 d)

/-- The message-word index used by operation `i`. -/
def md5G (i : Nat) : Nat :=
  if i < 16 then i
  else if i < 32 then (5 * i + 1) % 16
  else if i < 48 then (3 * i + 5) % 16
  else (7 * i) % 16

/-- One of the 64 operations of the MD5 compression function. -/
def md5Step (block : List Nat) (st : MD5State) (i : Nat) : MD5State :=
  let f := w32 (md5F i st.b st.c st.d + st.a + md5_k.getD i 0 +
    word32LE block (md5G i))
  ⟨st.d, w32 (st.b + rotl32 f (md5_s.getD i 0)), st.b, st.c⟩

/-- The MD5 compression function on one 64-byte block. -/
def processBlock (st : MD5State) (block : List Nat) : MD5State :=
  let r := (List.range 64).foldl (md5Step block) st
  ⟨w32 (st.a + r.a), w32 (st.b + r.b), w32 (st.c + r.c), w32 (st.d + r.d)⟩

/-- The `len`-byte little-endian encoding of `n`. -/
def toBytesLE (len n : Nat) : List Nat :=
  (List.range len).map (fun i => n / 256 ^ i % 256)

/-- MD5 padding: a `0x80` byte, zeros to 56 mod 64, then the 64-bit
little-endian bit length of the message. -/
def md5Pad (msg : List Nat) : List Nat :=
  msg ++ 128 :: List.replicate ((119 - msg.length % 64) % 64) 0 ++
    toBytesLE 8 (8 * msg.length % 18446744073709551616)

/-- Cut a byte sequence into 64-byte blocks. -/
def toBlocks (bs : List Nat) : List (List Nat) :=
  if h : bs = [] then [] else bs.take 64 :: toBlocks (bs.drop 64)
termination_by bs.length
decreasing_by
  simp [List.length_drop]
  exact List.length_pos.mpr h

/-- Lowercase hexadecimal digit for `d < 16`. -/
def hexDigitChar (d : Nat) : Char :=
  if d < 10 then Char.ofNat (48 + d) else Char.ofNat (87 + d)

/-- Two lowercase hex digits of a byte. -/
def byteToHex (b : Nat) : PyStr := [hexDigitChar (b / 16), hexDigitChar (b % 16)]

/-- The MD5 digest of a byte sequence, as a 32-character lowercase hex
string — the value of `hashlib.md5(msg).hexdigest()`. -/
def md5Hex (msg : List Nat) : PyStr :=
  let st := (toBlocks (md5Pad msg)).foldl processBlock md5Init
  ((toBytesLE 4 st.a ++ toBytesLE 4 st.b ++ toBytesLE 4 st.c ++
    toBytesLE 4 st.d).map byteToHex).flatten

/-- A `hashlib.md5()` object.  Per the `hashlib` contract,
`m.update(a); m.update(b)` is equivalent to `m.update(a + b)`, so the
observable state is the byte sequence fed so far. -/
structure MD5Hasher where
  data : List Nat
deriving DecidableEq, Repr

/-- `hashlib.md5()`: a fresh hasher over the empty message. -/
def md5_new : MD5Hasher := ⟨[]⟩

/-- `m.update(chunk)`. -/
def update (m : MD5Hasher) (chunk : List Nat) : MD5Hasher := ⟨m.data ++ chunk⟩

/-- `m.hexdigest()`. -/
def hexdigest (m : MD5Hasher) : PyStr := md5Hex m.data

end hashlib

/-- The `while True: chunk = f.read(csize); if not chunk: break` read loop of
`calculate_md5`, as the list of chunks it yields.  Python's `f.read(0)`
returns `b""` at once, so a zero chunk size yields no chunks at all. -/
def readChunks (csize : Nat) (content : List Nat) : List (List Nat) :=
  if h : content = [] ∨ csize = 0 then []
  else content.take csize :: readChunks csize (content.drop csize)
termination_by content.length
decreasing_by
  push_neg at h
  simp [List.length_drop]
  exact ⟨List.length_pos.mpr h.1, Nat.pos_of_ne_zero h.2⟩

/-- The body shared verbatim by `FileTransferClient.calculate_md5` and
`FileTransferServer.calculate_md5`, generalised over the chunk size: feed the
file content chunk by chunk into a fresh MD5 hasher and take the hex digest. -/
def md5_chunked (content : List Nat) (csize : Nat) : PyStr :=
  hashlib.hexdigest ((readChunks csize content).foldl hashlib.update hashlib.md5_new)

namespace netcopy_cli

/-- `CHUNK_SIZE` of `netcopy_cli.py`. -/
def CHUNK_SIZE : Nat := 4096

/-- Embedding of `FileTransferClient.calculate_md5` applied to a readable
file whose content is `content`. -/
def calculate_md5 (content : List Nat) : PyStr := md5_chunked content CHUNK_SIZE

/-- The externally visible side effects of one `transfer_file` invocation,
in order of occurrence. -/
inductive SendEvent where
  /-- `calculate_md5` returned the digest `h` of the on-disk file. -/
  | digestComputed (h : PyStr)
  /-- `send_file` streamed the complete byte stream to the receiver. -/
  | bytesSent
  /-- the sending socket was closed (end of the `with` block). -/
  | sendConnClosed
  /-- `send_checksum` opened a connection to the registry and sent `BE`. -/
  | registryContacted
deriving DecidableEq, Repr

/-- Effect trace and result of `FileTransferClient.send_file`: on success the
full stream is sent and the socket closed; on any connect/write error the
exception is caught and `False` returned (partial writes are not modelled). -/
def send_file (sendOk : Bool) : List SendEvent × Bool :=
  if sendOk then ([.bytesSent, .sendConnClosed], true) else ([], false)

/-- Effect trace and result of `FileTransferClient.send_checksum`: the
registry is contacted and `BE` sent; the result tells whether the response
was exactly `OK`. -/
def send_checksum (regOk : Bool) : List SendEvent × Bool :=
  ([.registryContacted], regOk)

/-- Embedding of `FileTransferClient.transfer_file`, parametrised by the
outcomes of its three steps: `md5Result` is `none` when `calculate_md5`
raises (caught by the outer `except`, returning `False`), `sendOk` is the
result of `send_file`, `regOk` the result of `send_checksum`.  Returns the
ordered effect trace and the boolean result. -/
def transfer_file (md5Result : Option PyStr) (sendOk regOk : Bool) :
    List SendEvent × Bool :=
  match md5Result with
  | none => ([], false)
  | some h =>
    let e0 := [SendEvent.digestComputed h]
    let s := send_file sendOk
    if s.2 = false then (e0 ++ s.1, false)
    else
      let r := send_checksum regOk
      if r.2 = false then (e0 ++ s.1 ++ r.1, false)
      else (e0 ++ s.1 ++ r.1, true)

/-- The full effect sequence of a completely successful transfer; every run
of `transfer_file` produces a prefix of it. -/
def senderFullTrace (md5Result : Option PyStr) : List SendEvent :=
  match md5Result with
  | none => []
  | some h => [.digestComputed h, .bytesSent, .sendConnClosed, .registryContacted]

end netcopy_cli

namespace netcopy_srv

/-- `CHUNK_SIZE` of `netcopy_srv.py`. -/
def CHUNK_SIZE : Nat := 4096

/-- Embedding of `FileTransferServer.calculate_md5` applied to a readable
file whose content is `content`. -/
def calculate_md5 (content : List Nat) : PyStr := md5_chunked content CHUNK_SIZE

/-- The spec's verdict taxonomy (§7) for one `receive_and_validate` run:
`ok`, `corrupted` (hash mismatch), `unavailable` (registry has no live
entry), or an I/O failure in one of the steps. -/
inductive Verdict where
  | ok
  | corrupted
  | unavailable
  | ioFailure
deriving DecidableEq, Repr

/-- Embedding of `FileTransferServer.get_checksum`, parametrised by the
registry interaction: `resp` is `none` when connecting/sending raised (the
exception is caught, returning `None`), else the decoded response text.
The response is split at the first `"|"`; `data.split("|", 1)` always has
exactly two parts when `"|" in data`, so the arity guard of the source is
never taken; a non-integer length or a length of zero yields `None`. -/
def get_checksum (resp : Option PyStr) : Option PyStr :=
  match resp with
  | none => none
  | some data =>
    if ('|' : Char) ∈ data then
      let parts := splitFirstPipe data
      match toIntOpt parts.1 with
      | none => none
      | some len => if len > 0 then some parts.2 else none
    else none

/-- Embedding of `FileTransferServer.receive_and_validate`, parametrised by
the outcomes of its steps: `recvOk` is the result of `receive_file`,
`regResponse` the registry interaction passed to `get_checksum`, and
`md5Result` is `none` when `calculate_md5` raises (caught by the outer
`except`, returning `False`).  The source returns a single `bool`. -/
def receive_and_validate (recvOk : Bool) (regResponse : Option PyStr)
    (md5Result : Option PyStr) : Bool :=
  if recvOk = false then false
  else
    match get_checksum regResponse with
    | none => false
    | some expected =>
      match md5Result with
      | none => false
      | some actual => expected = actual

/-- Modelled from the spec: the §7 verdict of one `receive_and_validate`
run, classifying the same parametrised outcomes that the code sees.  An
I/O failure is a failed `receive_file`, a failed registry connection, an
unparseable registry response, or a raising `calculate_md5`; `unavailable`
is the registry's `0|` answer; otherwise the hash comparison decides
between `ok` and `corrupted`. -/
def verdictOf (recvOk : Bool) (regResponse : Option PyStr)
    (md5Result : Option PyStr) : Verdict :=
  if recvOk = false then .ioFailure
  else
    match regResponse with
    | none => .ioFailure
    | some data =>
      if data = checksum_srv.notFoundResp then .unavailable
      else
        match md5Result, get_checksum (some data) with
        | none, _ => .ioFailure
        | _, none => .ioFailure
        | some actual, some expected =>
          if expected = actual then .ok else .corrupted

end netcopy_srv

namespace netcopy_srv_module

/-- The names bound by the `import` statements of `netcopy_srv.py`
(lines 1–4). -/
def importedNames : List String := ["socket", "hashlib", "sys", "os"]

/-- The module-level constant assignments of `netcopy_srv.py`. -/
def moduleConstantNames : List String := ["CHUNK_SIZE", "RECEIVE_TIMEOUT"]

/-- The Python builtins that the module references by name. -/
def relevantBuiltins : List String :=
  ["str", "int", "bool", "float", "bytes", "len", "open", "print",
   "Exception", "ValueError", "FileNotFoundError", "IOError"]

/-- The annotation expressions evaluated, in source order, while the class
body of `FileTransferServer` executes.  The module has no
`from __future__ import annotations`, so every parameter and return
annotation of every `def` is evaluated eagerly at class-definition time;
each entry is the name the expression looks up first. -/
def classBodyAnnotationNames : List String :=
  ["str", "int", "str", "int",   -- __init__(bind_ip, bind_port, chsum_ip, chsum_port)
   "str", "str",                 -- calculate_md5(file_path) -> str
   "str", "bool",                -- receive_file(out_file) -> bool
   "str", "Optional", "str",     -- get_checksum(file_id) -> Optional[str]
   "str", "str", "bool"]         -- receive_and_validate(file_id, out_file) -> bool

/-- Whether a name resolves in the module's global namespace or in the
builtins when the class body executes. -/
def resolvesName (n : String) : Bool :=
  (importedNames ++ moduleConstantNames ++ relevantBuiltins).contains n

/-- The first annotation name whose lookup raises `NameError` while the
class body of `FileTransferServer` executes. -/
def firstUnresolvedName : Option String :=
  classBodyAnnotationNames.find? (fun n => !resolvesName n)

/-- Evaluating the module `netcopy_srv.py`: executing the class body of
`FileTransferServer` evaluates each annotation in order and raises
`NameError` at the first unresolvable name, aborting the import before any
function can be called. -/
def moduleEval : Except String Unit :=
  match firstUnresolvedName with
  | some n => .error ("NameError: name " ++ n ++ " is not defined")
  | none => .ok ()

end netcopy_srv_module

/-- The `BE` line the sender builds in `send_checksum` (without the trailing
newline, which the multiplexer strips when framing lines):
`f"BE|\x7bfile_id\x7d|\x7bttl\x7d|\x7blen(checksum)\x7d|\x7bchecksum\x7d"`. -/
def beLine (fid : PyStr) (ttl : Nat) (hash : PyStr) : PyStr :=
  checksum_srv.beCmd ++ ('|' :: (fid ++ ('|' :: (natToDigits ttl ++
    ('|' :: (natToDigits hash.length ++ ('|' :: hash)))))))

/-- The `KI` line the receiver builds in `get_checksum` (without the trailing
newline). -/
def kiLine (fid : PyStr) : PyStr :=
  checksum_srv.kiCmd ++ '|' :: fid

section UtilLemmas

theorem splitPipe_ne_nil (s : PyStr) : splitPipe s ≠ [] := by
  cases s with
  | nil => simp [splitPipe]
  | cons c rest =>
    simp only [splitPipe]
    cases splitPipe rest with
    | nil => simp
    | cons f fs =>
      dsimp only
      split <;> simp

theorem splitPipe_no_pipe (s : PyStr) (h : ('|' : Char) ∉ s) : splitPipe s = [s] := by
  induction s with
  | nil => rfl
  | cons c rest ih =>
    have hc : c ≠ '|' := fun hc => h (hc ▸ List.mem_cons_self c rest)
    have hrest : ('|' : Char) ∉ rest := fun hm => h (List.mem_cons_of_mem c hm)
    simp only [splitPipe, ih hrest]
    simp [hc]

theorem splitPipe_append_pipe (a b : PyStr) (h : ('|' : Char) ∉ a) :
    splitPipe (a ++ '|' :: b) = a :: splitPipe b := by
  induction a with
  | nil =>
    simp only [List.nil_append, splitPipe]
    rcases hr : splitPipe b with _ | ⟨f, fs⟩
    · exact absurd hr (splitPipe_ne_nil b)
    · simp
  | cons c rest ih =>
    have hc : c ≠ '|' := fun hc => h (hc ▸ List.mem_cons_self c rest)
    have hrest : ('|' : Char) ∉ rest := fun hm => h (List.mem_cons_of_mem c hm)
    simp only [List.cons_append, splitPipe]
    have ih' : splitPipe (rest.append ('|' :: b)) = rest :: splitPipe b := ih hrest
    rw [ih']
    simp [hc]

theorem mem_of_mem_splitPipe {c : Char} {f s : PyStr}
    (hf : f ∈ splitPipe s) (hc : c ∈ f) : c ∈ s := by
  induction s generalizing f with
  | nil =>
    simp [splitPipe] at hf
    subst hf
    exact absurd hc (List.not_mem_nil c)
  | cons c0 rest ih =>
    simp only [splitPipe] at hf
    cases hr : splitPipe rest with
    | nil => exact absurd hr (splitPipe_ne_nil rest)
    | cons g gs =>
      rw [hr] at hf
      dsimp only at hf
      by_cases h0 : c0 = '|'
      · rw [if_pos h0] at hf
        rcases List.mem_cons.mp hf with hf | hf
        · subst hf; exact absurd hc (List.not_mem_nil c)
        · have hf' : f ∈ splitPipe rest := by rw [hr]; exact hf
          exact List.mem_cons_of_mem c0 (ih hf' hc)
      · rw [if_neg h0] at hf
        rcases List.mem_cons.mp hf with hf | hf
        · subst hf
          rcases List.mem_cons.mp hc with hce | hcm
          · exact hce ▸ List.mem_cons_self c0 rest
          · have hg : g ∈ splitPipe rest := by rw [hr]; exact List.mem_cons_self g gs
            exact List.mem_cons_of_mem c0 (ih hg hcm)
        · have hf' : f ∈ splitPipe rest := by rw [hr]; exact List.mem_cons_of_mem g hf
          exact List.mem_cons_of_mem c0 (ih hf' hc)

theorem dropWhile_eq_self_of_head {p : Char → Bool} {l : PyStr}
    (h : ∀ c, l.head? = some c → p c = false) : l.dropWhile p = l := by
  cases l with
  | nil => rfl
  | cons c t => simp [List.dropWhile_cons, h c rfl]

theorem strip_eq_self {s : PyStr}
    (h1 : ∀ c, s.head? = some c → isPySpace c = false)
    (h2 : ∀ c, s.getLast? = some c → isPySpace c = false) : strip s = s := by
  unfold strip
  rw [dropWhile_eq_self_of_head h1]
  have : s.reverse.dropWhile isPySpace = s.reverse := by
    apply dropWhile_eq_self_of_head
    intro c hcr
    exact h2 c (by rwa [List.head?_reverse] at hcr)
  rw [this, List.reverse_reverse]

theorem mem_strip {c : Char} {s : PyStr} (h : c ∈ strip s) : c ∈ s := by
  unfold strip at h
  rw [List.mem_reverse] at h
  have h1 := (List.dropWhile_sublist (l := (s.dropWhile isPySpace).reverse)
    (p := isPySpace)).subset h
  rw [List.mem_reverse] at h1
  exact (List.dropWhile_sublist (l := s) (p := isPySpace)).subset h1

end UtilLemmas

section DigitLemmas

theorem toNat_digitChar {d : Nat} (hd : d < 10) : (digitChar d).toNat = 48 + d := by
  have hv : Nat.isValidChar (48 + d) := Or.inl (by omega)
  unfold digitChar Char.ofNat
  rw [dif_pos hv]
  rfl

theorem natToDigitsAux_eq (fuel : Nat) : ∀ (n : Nat) (acc : PyStr), n ≤ fuel →
    natToDigitsAux fuel n acc = ((Nat.digits 10 n).map digitChar).reverse ++ acc := by
  induction fuel with
  | zero =>
    intro n acc hn
    have h0 : n = 0 := by omega
    subst h0
    simp [natToDigitsAux]
  | succ fuel ih =>
    intro n acc hn
    by_cases h0 : n = 0
    · subst h0
      simp [natToDigitsAux]
    · simp only [natToDigitsAux]
      rw [if_neg h0]
      have hdiv : n / 10 ≤ fuel := by
        have : n / 10 < n := Nat.div_lt_self (Nat.pos_of_ne_zero h0) (by norm_num)
        omega
      rw [ih (n / 10) _ hdiv,
        Nat.digits_def' (by norm_num : (1 : ℕ) < 10) (Nat.pos_of_ne_zero h0)]
      simp [List.reverse_cons, List.append_assoc]

theorem natToDigits_eq (n : Nat) :
    natToDigits n = if n = 0 then ['0'] else ((Nat.digits 10 n).map digitChar).reverse := by
  unfold natToDigits
  by_cases h0 : n = 0
  · simp [h0]
  · rw [if_neg h0, if_neg h0, natToDigitsAux_eq n n [] le_rfl, List.append_nil]

theorem mem_natToDigits_digit {c : Char} {n : Nat} (hc : c ∈ natToDigits n) :
    48 ≤ c.toNat ∧ c.toNat ≤ 57 := by
  rw [natToDigits_eq] at hc
  by_cases h0 : n = 0
  · rw [if_pos h0] at hc
    simp at hc
    subst hc
    decide
  · rw [if_neg h0] at hc
    rw [List.mem_reverse, List.mem_map] at hc
    obtain ⟨d, hd, rfl⟩ := hc
    have hlt : d < 10 := Nat.digits_lt_base (by omega) hd
    rw [toNat_digitChar hlt]
    omega

theorem natToDigits_no_pipe (n : Nat) : ('|' : Char) ∉ natToDigits n := by
  intro hc
  have h := mem_natToDigits_digit hc
  have h124 : ('|' : Char).toNat = 124 := rfl
  omega

theorem natToDigits_no_space {c : Char} {n : Nat} (hc : c ∈ natToDigits n) :
    isPySpace c = false := by
  have h := mem_natToDigits_digit hc
  unfold isPySpace
  simp only [Bool.or_eq_false_iff, decide_eq_false_iff_not]
  omega

theorem natToDigits_ne_nil (n : Nat) : natToDigits n ≠ [] := by
  rw [natToDigits_eq]
  by_cases h0 : n = 0
  · simp [h0]
  · rw [if_neg h0]
    simp [Nat.digits_ne_nil_iff_ne_zero.mpr h0]

theorem foldl_digits_eq_ofDigits (l : List Nat) (hl : ∀ d ∈ l, d < 10) (a : Nat) :
    ((l.map digitChar).reverse).foldl (fun acc c => 10 * acc + (c.toNat - 48)) a
      = a * 10 ^ l.length + Nat.ofDigits 10 l := by
  induction l generalizing a with
  | nil => simp
  | cons d t ih =>
    have hd : d < 10 := hl d (List.mem_cons_self d t)
    have ht : ∀ x ∈ t, x < 10 := fun x hx => hl x (List.mem_cons_of_mem d hx)
    simp only [List.map_cons, List.reverse_cons, List.foldl_append, List.foldl_cons,
      List.foldl_nil]
    rw [ih ht a, toNat_digitChar hd]
    have : 48 + d - 48 = d := by omega
    rw [this, Nat.ofDigits_cons, List.length_cons, pow_succ]
    ring

theorem parseDigits_natToDigits (n : Nat) : parseDigits (natToDigits n) = some n := by
  by_cases h0 : n = 0
  · subst h0; decide
  · have hall : (natToDigits n).all (fun c => decide (48 ≤ c.toNat ∧ c.toNat ≤ 57)) := by
      rw [List.all_eq_true]
      intro c hc
      exact decide_eq_true (mem_natToDigits_digit hc)
    unfold parseDigits
    rw [if_pos ⟨natToDigits_ne_nil n, hall⟩]
    rw [natToDigits_eq, if_neg h0]
    rw [foldl_digits_eq_ofDigits _ (fun d hd => Nat.digits_lt_base (by omega) hd) 0]
    simp [Nat.ofDigits_digits]

theorem strip_natToDigits (n : Nat) : strip (natToDigits n) = natToDigits n := by
  apply strip_eq_self
  · intro c hc
    exact natToDigits_no_space (List.mem_of_mem_head? hc)
  · intro c hc
    exact natToDigits_no_space (List.mem_of_mem_getLast? hc)

theorem toIntOpt_natToDigits (n : Nat) : toIntOpt (natToDigits n) = some (n : Int) := by
  unfold toIntOpt
  rw [strip_natToDigits]
  obtain ⟨c, t, hct⟩ : ∃ c t, natToDigits n = c :: t := by
    cases h : natToDigits n with
    | nil => exact absurd h (natToDigits_ne_nil n)
    | cons c t => exact ⟨c, t, rfl⟩
  have hdig := mem_natToDigits_digit (hct ▸ List.mem_cons_self c t)
  have hplus : (natToDigits n).head? ≠ some '+' := by
    rw [hct]
    simp only [List.head?_cons, ne_eq, Option.some.injEq]
    intro heq
    rw [heq] at hdig
    revert hdig
    decide
  have hminus : (natToDigits n).head? ≠ some '-' := by
    rw [hct]
    simp only [List.head?_cons, ne_eq, Option.some.injEq]
    intro heq
    rw [heq] at hdig
    revert hdig
    decide
  rw [if_neg hplus, if_neg hminus, parseDigits_natToDigits]
  rfl

end DigitLemmas

namespace checksum_srv

theorem dictGet_dictSet_self (st : ChecksumStore) (k : PyStr) (v : StoreEntry) :
    dictGet (dictSet st k v) k = some v := by
  induction st with
  | nil => simp [dictSet, dictGet]
  | cons p rest ih =>
    obtain ⟨k', v'⟩ := p
    by_cases hk : k' = k
    · simp [dictSet, dictGet, hk]
    · simp [dictSet, dictGet, hk, ih]

theorem dictGet_eq_none_of_not_mem {st : ChecksumStore} {k : PyStr}
    (h : k ∉ st.map Prod.fst) : dictGet st k = none := by
  induction st with
  | nil => rfl
  | cons p rest ih =>
    obtain ⟨k', v'⟩ := p
    simp only [List.map_cons, List.mem_cons] at h
    push_neg at h
    have hk : ¬k' = k := fun he => h.1 he.symm
    simp [dictGet, hk, ih h.2]

theorem dictGet_dictPop_self {st : ChecksumStore} {k : PyStr}
    (hnd : (st.map Prod.fst).Nodup) : dictGet (dictPop st k) k = none := by
  induction st with
  | nil => rfl
  | cons p rest ih =>
    obtain ⟨k', v'⟩ := p
    simp only [List.map_cons, List.nodup_cons] at hnd
    by_cases hk : k' = k
    · subst hk
      simpa [dictPop] using dictGet_eq_none_of_not_mem hnd.1
    · simp [dictPop, hk, dictGet, ih hnd.2]

theorem mem_dictSet {p : PyStr × StoreEntry} {st : ChecksumStore} {k : PyStr}
    {v : StoreEntry} (h : p ∈ dictSet st k v) : p ∈ st ∨ p = (k, v) := by
  induction st with
  | nil => simp [dictSet] at h; simp [h]
  | cons q rest ih =>
    obtain ⟨k', v'⟩ := q
    by_cases hk : k' = k
    · simp only [dictSet, if_pos hk] at h
      rcases List.mem_cons.mp h with h | h
      · right; rw [h, hk]
      · left; exact List.mem_cons_of_mem _ h
    · simp only [dictSet, if_neg hk] at h
      rcases List.mem_cons.mp h with h | h
      · left; rw [h]; exact List.mem_cons_self _ _
      · rcases ih h with h | h
        · left; exact List.mem_cons_of_mem _ h
        · right; exact h

theorem dictGet_dictSet_ne (st : ChecksumStore) {k k' : PyStr} (v : StoreEntry)
    (h : k' ≠ k) : dictGet (dictSet st k v) k' = dictGet st k' := by
  have hkk : ¬k = k' := fun he => h he.symm
  induction st with
  | nil => simp [dictSet, dictGet, hkk]
  | cons p rest ih =>
    obtain ⟨k0, v0⟩ := p
    by_cases hk : k0 = k
    · subst hk
      simp [dictSet, dictGet, hkk]
    · simp [dictSet, dictGet, hk, ih]

theorem mem_dictPop {p : PyStr × StoreEntry} {st : ChecksumStore} {k : PyStr}
    (h : p ∈ dictPop st k) : p ∈ st := by
  induction st with
  | nil => simp [dictPop] at h
  | cons q rest ih =>
    obtain ⟨k', v'⟩ := q
    by_cases hk : k' = k
    · simp only [dictPop, if_pos hk] at h
      exact List.mem_cons_of_mem _ h
    · simp only [dictPop, if_neg hk] at h
      rcases List.mem_cons.mp h with h | h
      · rw [h]; exact List.mem_cons_self _ _
      · exact List.mem_cons_of_mem _ (ih h)

end checksum_srv

section LineLemmas

theorem getLast?_pipe_append (u v : PyStr) :
    (u ++ '|' :: v).getLast? = if v = [] then some '|' else v.getLast? := by
  by_cases hv : v = []
  · subst hv
    simp [List.getLast?_concat]
  · rw [if_neg hv, List.getLast?_append_of_ne_nil u (by simp),
      show ('|' :: v) = ['|'] ++ v from rfl, List.getLast?_append_of_ne_nil _ hv]

theorem getLast?_beLine (fid : PyStr) (ttl : Nat) (hash : PyStr) :
    (beLine fid ttl hash).getLast? = if hash = [] then some '|' else hash.getLast? := by
  have h1 : fid ++ ('|' :: (natToDigits ttl ++
      ('|' :: (natToDigits hash.length ++ ('|' :: hash))))) ≠ [] := by simp
  have h2 : natToDigits ttl ++
      ('|' :: (natToDigits hash.length ++ ('|' :: hash))) ≠ [] := by simp
  have h3 : natToDigits hash.length ++ ('|' :: hash) ≠ [] := by simp
  unfold beLine
  rw [getLast?_pipe_append, if_neg h1, getLast?_pipe_append, if_neg h2,
    getLast?_pipe_append, if_neg h3, getLast?_pipe_append]

theorem getLast?_kiLine (fid : PyStr) :
    (kiLine fid).getLast? = if fid = [] then some '|' else fid.getLast? := by
  unfold kiLine
  rw [getLast?_pipe_append]

theorem strip_beLine (fid : PyStr) (ttl : Nat) (hash : PyStr)
    (hhl : ∀ c, hash.getLast? = some c → isPySpace c = false) :
    strip (beLine fid ttl hash) = beLine fid ttl hash := by
  apply strip_eq_self
  · intro c hc
    have : (beLine fid ttl hash).head? = some 'B' := rfl
    rw [this, Option.some.injEq] at hc
    subst hc
    decide
  · intro c hc
    rw [getLast?_beLine] at hc
    by_cases hh : hash = []
    · rw [if_pos hh, Option.some.injEq] at hc
      subst hc
      decide
    · exact hhl c (by rwa [if_neg hh] at hc)

theorem strip_kiLine (fid : PyStr)
    (hfl : ∀ c, fid.getLast? = some c → isPySpace c = false) :
    strip (kiLine fid) = kiLine fid := by
  apply strip_eq_self
  · intro c hc
    have : (kiLine fid).head? = some 'K' := rfl
    rw [this, Option.some.injEq] at hc
    subst hc
    decide
  · intro c hc
    rw [getLast?_kiLine] at hc
    by_cases hh : fid = []
    · rw [if_pos hh, Option.some.injEq] at hc
      subst hc
      decide
    · exact hfl c (by rwa [if_neg hh] at hc)

theorem splitPipe_beLine (fid : PyStr) (ttl : Nat) (hash : PyStr)
    (hfp : ('|' : Char) ∉ fid) (hhp : ('|' : Char) ∉ hash) :
    splitPipe (beLine fid ttl hash)
      = [checksum_srv.beCmd, fid, natToDigits ttl, natToDigits hash.length, hash] := by
  have hbe : ('|' : Char) ∉ checksum_srv.beCmd := by decide
  unfold beLine
  rw [splitPipe_append_pipe checksum_srv.beCmd
      (fid ++ ('|' :: (natToDigits ttl ++
        ('|' :: (natToDigits hash.length ++ ('|' :: hash)))))) hbe,
    splitPipe_append_pipe fid
      (natToDigits ttl ++ ('|' :: (natToDigits hash.length ++ ('|' :: hash)))) hfp,
    splitPipe_append_pipe (natToDigits ttl)
      (natToDigits hash.length ++ ('|' :: hash)) (natToDigits_no_pipe ttl),
    splitPipe_append_pipe (natToDigits hash.length) hash
      (natToDigits_no_pipe hash.length),
    splitPipe_no_pipe hash hhp]

theorem splitPipe_kiLine (fid : PyStr) (hfp : ('|' : Char) ∉ fid) :
    splitPipe (kiLine fid) = [checksum_srv.kiCmd, fid] := by
  have hki : ('|' : Char) ∉ checksum_srv.kiCmd := by decide
  unfold kiLine
  rw [splitPipe_append_pipe checksum_srv.kiCmd fid hki, splitPipe_no_pipe fid hfp]

theorem process_data_beLine (store : checksum_srv.ChecksumStore) (now : ℚ)
    (fid hash : PyStr) (ttl : Nat)
    (hfp : ('|' : Char) ∉ fid) (hhp : ('|' : Char) ∉ hash)
    (hhl : ∀ c, hash.getLast? = some c → isPySpace c = false) :
    checksum_srv.process_data store now (beLine fid ttl hash)
      = (checksum_srv.dictSet store fid ⟨now + (ttl : ℚ), hash⟩, checksum_srv.okResp) := by
  unfold checksum_srv.process_data
  rw [strip_beLine fid ttl hash hhl, splitPipe_beLine fid ttl hash hfp hhp]
  dsimp only
  have hpos : checksum_srv.beCmd = checksum_srv.beCmd ∧
      ([checksum_srv.beCmd, fid, natToDigits ttl, natToDigits hash.length, hash] :
        List PyStr).length = 5 := ⟨rfl, rfl⟩
  rw [if_pos hpos]
  unfold checksum_srv.handle_store_command
  dsimp only
  rw [toIntOpt_natToDigits ttl]
  dsimp only
  norm_cast

theorem process_data_kiLine (store : checksum_srv.ChecksumStore) (now : ℚ)
    (fid : PyStr)
    (hfp : ('|' : Char) ∉ fid)
    (hfl : ∀ c, fid.getLast? = some c → isPySpace c = false) :
    checksum_srv.process_data store now (kiLine fid)
      = match checksum_srv.dictGet store fid with
        | none => (store, checksum_srv.notFoundResp)
        | some entry =>
          if now > entry.expiry then
            (checksum_srv.dictPop store fid, checksum_srv.notFoundResp)
          else
            (store, natToDigits entry.checksum.length ++ '|' :: entry.checksum) := by
  unfold checksum_srv.process_data
  rw [strip_kiLine fid hfl, splitPipe_kiLine fid hfp]
  dsimp only
  have hneg : ¬(checksum_srv.kiCmd = checksum_srv.beCmd ∧
      ([checksum_srv.kiCmd, fid] : List PyStr).length = 5) := by
    intro hc
    exact absurd hc.1 (by decide)
  have hpos : checksum_srv.kiCmd = checksum_srv.kiCmd ∧
      ([checksum_srv.kiCmd, fid] : List PyStr).length = 2 := ⟨rfl, rfl⟩
  rw [if_neg hneg, if_pos hpos]
  unfold checksum_srv.handle_retrieve_command
  rfl

end LineLemmas

/-- C1: for every `file_id`, `hash` and positive TTL, executing the `BE`
(store) command at time `t0` and then the `KI` (retrieve) command for that
`file_id` at a time `t1` before the expiry instant `t0 + ttl` answers `OK`
to the store, and the retrieval response is exactly
`f"\x7blen(hash)\x7d|\x7bhash\x7d"` — the stored hash preceded by its true
length. -/
theorem put_get_returns_stored_hash
    (store : checksum_srv.ChecksumStore) (fid hash : PyStr) (ttl : Nat) (t0 t1 : ℚ)
    (httl : 0 < ttl)
    (ht : t1 < t0 + (ttl : ℚ))
    (hfp : ('|' : Char) ∉ fid) (hhp : ('|' : Char) ∉ hash)
    (hfl : ∀ c, fid.getLast? = some c → isPySpace c = false)
    (hhl : ∀ c, hash.getLast? = some c → isPySpace c = false) :
    (checksum_srv.process_data store t0 (beLine fid ttl hash)).2 = checksum_srv.okResp ∧
    (checksum_srv.process_data
        (checksum_srv.process_data store t0 (beLine fid ttl hash)).1 t1
        (kiLine fid)).2
      = natToDigits hash.length ++ '|' :: hash := by
  rw [process_data_beLine store t0 fid hash ttl hfp hhp hhl]
  refine ⟨rfl, ?_⟩
  rw [process_data_kiLine _ t1 fid hfp hfl]
  dsimp only
  rw [checksum_srv.dictGet_dictSet_self]
  dsimp only
  rw [if_neg (not_lt.mpr (le_of_lt ht))]

/-- Witness for C1 at `file_id = "f"`, `hash = "ab"`, `ttl = 60`, store time
`0` and lookup time `59`. -/
theorem put_get_returns_stored_hash_witness :
    (checksum_srv.process_data [] 0 (beLine ['f'] 60 ['a', 'b'])).2
        = checksum_srv.okResp ∧
    (checksum_srv.process_data
        (checksum_srv.process_data [] 0 (beLine ['f'] 60 ['a', 'b'])).1 59
        (kiLine ['f'])).2
      = natToDigits (['a', 'b'] : PyStr).length ++ '|' :: ['a', 'b'] :=
  put_get_returns_stored_hash [] ['f'] ['a', 'b'] 60 0 59
    (by norm_num) (by norm_num) (by decide) (by decide)
    (by intro c hc; simp at hc; subst hc; decide)
    (by intro c hc; simp at hc; subst hc; decide)

/-- C2 counterexample: with an entry for `"f"` whose `expires_at` is `10`, a
`KI` lookup whose `time.time()` reading is exactly `10` does NOT answer the
not-found response `0|`: the guard is the strict `time.time() > expiry_time`,
so at the boundary the server serves the stored hash `"ab"` as `2|ab`. -/
theorem get_at_expiry_instant_cex :
    checksum_srv.process_data [(['f'], ⟨10, ['a', 'b']⟩)] 10 (kiLine ['f'])
        = ([(['f'], ⟨10, ['a', 'b']⟩)], ['2', '|', 'a', 'b']) ∧
      (['2', '|', 'a', 'b'] : PyStr) ≠ checksum_srv.notFoundResp := by
  constructor
  · decide
  · decide

/-- C2 amended: a `KI` lookup whose evaluation time is exactly the entry's
expiry instant treats the entry as still VALID and returns the stored hash
(the code's only guard is the strict `now > expires_at`, so the boundary
instant is served, not expired). -/
theorem get_at_expiry_instant_serves
    (store : checksum_srv.ChecksumStore) (fid : PyStr) (e : checksum_srv.StoreEntry)
    (hg : checksum_srv.dictGet store fid = some e)
    (hfp : ('|' : Char) ∉ fid)
    (hfl : ∀ c, fid.getLast? = some c → isPySpace c = false) :
    checksum_srv.process_data store e.expiry (kiLine fid)
      = (store, natToDigits e.checksum.length ++ '|' :: e.checksum) := by
  rw [process_data_kiLine store e.expiry fid hfp hfl, hg]
  dsimp only
  rw [if_neg (lt_irrefl e.expiry)]

/-- Witness for the amended C2 at a one-entry store with expiry `10`. -/
theorem get_at_expiry_instant_serves_witness :
    checksum_srv.process_data [(['f'], ⟨10, ['a', 'b']⟩)] (10 : ℚ) (kiLine ['f'])
      = ([(['f'], ⟨10, ['a', 'b']⟩)],
         natToDigits (['a', 'b'] : PyStr).length ++ '|' :: ['a', 'b']) :=
  get_at_expiry_instant_serves [(['f'], ⟨10, ['a', 'b']⟩)] ['f'] ⟨10, ['a', 'b']⟩
    (by decide) (by decide) (by intro c hc; simp at hc; subst hc; decide)

/-- C3: a `KI` lookup answers `0|` when no entry exists, and when an entry
exists but `now > expires_at` it answers `0|` and removes the entry (a
subsequent lookup of the same store state misses); a response other than
`0|` is only possible when the expiry has not passed.  The `Nodup`
hypothesis is the Python `dict` invariant of one binding per key. -/
theorem get_not_found_or_expired
    (store : checksum_srv.ChecksumStore) (now : ℚ) (fid : PyStr)
    (hnd : (store.map Prod.fst).Nodup)
    (hfp : ('|' : Char) ∉ fid)
    (hfl : ∀ c, fid.getLast? = some c → isPySpace c = false) :
    (checksum_srv.dictGet store fid = none →
      checksum_srv.process_data store now (kiLine fid)
        = (store, checksum_srv.notFoundResp)) ∧
    (∀ e, checksum_srv.dictGet store fid = some e → now > e.expiry →
      checksum_srv.process_data store now (kiLine fid)
          = (checksum_srv.dictPop store fid, checksum_srv.notFoundResp) ∧
        checksum_srv.dictGet
          (checksum_srv.process_data store now (kiLine fid)).1 fid = none) ∧
    (∀ e, checksum_srv.dictGet store fid = some e →
      (checksum_srv.process_data store now (kiLine fid)).2 ≠ checksum_srv.notFoundResp →
      ¬now > e.expiry) := by
  have hpk := process_data_kiLine store now fid hfp hfl
  refine ⟨?_, ?_, ?_⟩
  · intro hnone
    rw [hpk, hnone]
  · intro e he hexp
    rw [hpk, he]
    dsimp only
    rw [if_pos hexp]
    exact ⟨rfl, checksum_srv.dictGet_dictPop_self hnd⟩
  · intro e he hne
    by_contra hexp
    rw [hpk, he] at hne
    dsimp only at hne
    rw [if_pos hexp] at hne
    exact hne rfl

/-- Witness for C3: an expired entry (expiry `10`, lookup at `20`) answers
`0|` and is purged. -/
theorem get_not_found_or_expired_witness :
    checksum_srv.process_data [(['f'], ⟨10, ['a']⟩)] 20 (kiLine ['f'])
        = (checksum_srv.dictPop [(['f'], ⟨10, ['a']⟩)] ['f'],
           checksum_srv.notFoundResp) ∧
      checksum_srv.dictGet
        (checksum_srv.process_data [(['f'], ⟨10, ['a']⟩)] 20 (kiLine ['f'])).1
        ['f'] = none :=
  (get_not_found_or_expired [(['f'], ⟨10, ['a']⟩)] 20 ['f']
      (by decide) (by decide)
      (by intro c hc; simp at hc; subst hc; decide)).2.1
    ⟨10, ['a']⟩ (by decide) (by norm_num)

/-- C6: storing `file_id` twice (hash `h1` at `t0`, then hash `h2` at `t1`)
succeeds both times with `OK` and silently overwrites: a `KI` lookup within
the second TTL window answers `h2` with its length, never `h1`
(last-write-wins). -/
theorem put_twice_last_write_wins
    (store : checksum_srv.ChecksumStore) (fid h1 h2 : PyStr) (ttl : Nat)
    (t0 t1 t2 : ℚ)
    (ht : t2 < t1 + (ttl : ℚ))
    (hfp : ('|' : Char) ∉ fid) (h1p : ('|' : Char) ∉ h1) (h2p : ('|' : Char) ∉ h2)
    (hfl : ∀ c, fid.getLast? = some c → isPySpace c = false)
    (h1l : ∀ c, h1.getLast? = some c → isPySpace c = false)
    (h2l : ∀ c, h2.getLast? = some c → isPySpace c = false) :
    (checksum_srv.process_data store t0 (beLine fid ttl h1)).2 = checksum_srv.okResp ∧
    (checksum_srv.process_data
        (checksum_srv.process_data store t0 (beLine fid ttl h1)).1 t1
        (beLine fid ttl h2)).2 = checksum_srv.okResp ∧
    (checksum_srv.process_data
        (checksum_srv.process_data
          (checksum_srv.process_data store t0 (beLine fid ttl h1)).1 t1
          (beLine fid ttl h2)).1 t2
        (kiLine fid)).2
      = natToDigits h2.length ++ '|' :: h2 := by
  rw [process_data_beLine store t0 fid h1 ttl hfp h1p h1l]
  dsimp only
  rw [process_data_beLine _ t1 fid h2 ttl hfp h2p h2l]
  refine ⟨rfl, rfl, ?_⟩
  dsimp only
  rw [process_data_kiLine _ t2 fid hfp hfl]
  rw [checksum_srv.dictGet_dictSet_self]
  dsimp only
  rw [if_neg (not_lt.mpr (le_of_lt ht))]

/-- Witness for C6: `h1 = "aa"`, `h2 = "bb"`, lookup before the second
expiry returns `2|bb`. -/
theorem put_twice_last_write_wins_witness :
    (checksum_srv.process_data [] 0 (beLine ['f'] 60 ['a', 'a'])).2
        = checksum_srv.okResp ∧
    (checksum_srv.process_data
        (checksum_srv.process_data [] 0 (beLine ['f'] 60 ['a', 'a'])).1 1
        (beLine ['f'] 60 ['b', 'b'])).2 = checksum_srv.okResp ∧
    (checksum_srv.process_data
        (checksum_srv.process_data
          (checksum_srv.process_data [] 0 (beLine ['f'] 60 ['a', 'a'])).1 1
          (beLine ['f'] 60 ['b', 'b'])).1 2
        (kiLine ['f'])).2
      = natToDigits (['b', 'b'] : PyStr).length ++ '|' :: ['b', 'b'] :=
  put_twice_last_write_wins [] ['f'] ['a', 'a'] ['b', 'b'] 60 0 1 2
    (by norm_num) (by decide) (by decide) (by decide)
    (by intro c hc; simp at hc; subst hc; decide)
    (by intro c hc; simp at hc; subst hc; decide)
    (by intro c hc; simp at hc; subst hc; decide)

/-- C5: a malformed `BE` command — the command word is `BE` but the field
count is not five, or the `ttl_seconds` field does not parse as an
integer — answers `ERR` and leaves the store completely unchanged (any
prior entry keeps its hash and expiry), and the per-connection line loop
goes on to process a subsequent command against the same, unchanged
store. -/
theorem malformed_store_errs_and_preserves_store
    (store : checksum_srv.ChecksumStore) (now : ℚ) (data : PyStr)
    (hbe : (splitPipe (strip data)).head? = some checksum_srv.beCmd)
    (hbad : (splitPipe (strip data)).length ≠ 5 ∨
      toIntOpt ((splitPipe (strip data)).getD 2 []) = none) :
    checksum_srv.process_data store now data = (store, checksum_srv.errResp) ∧
    ∀ (now2 : ℚ) (data2 : PyStr),
      checksum_srv.processLines store [(now, data), (now2, data2)]
        = ((checksum_srv.process_data store now2 data2).1,
          [checksum_srv.errResp, (checksum_srv.process_data store now2 data2).2]) := by
  have hmain : checksum_srv.process_data store now data
      = (store, checksum_srv.errResp) := by
    unfold checksum_srv.process_data
    cases hsp : splitPipe (strip data) with
    | nil => exact absurd hsp (splitPipe_ne_nil _)
    | cons c rest =>
      rw [hsp] at hbe hbad
      simp only [List.head?_cons, Option.some.injEq] at hbe
      subst hbe
      dsimp only
      rcases hbad with hlen | hint
      · have hc1 : ¬(checksum_srv.beCmd = checksum_srv.beCmd ∧
            (checksum_srv.beCmd :: rest).length = 5) := fun hc => hlen hc.2
        have hc2 : ¬(checksum_srv.beCmd = checksum_srv.kiCmd ∧
            (checksum_srv.beCmd :: rest).length = 2) := fun hc =>
          absurd hc.1 (by decide)
        rw [if_neg hc1, if_neg hc2]
      · by_cases h5 : (checksum_srv.beCmd :: rest).length = 5
        · have hpos : checksum_srv.beCmd = checksum_srv.beCmd ∧
              (checksum_srv.beCmd :: rest).length = 5 := ⟨rfl, h5⟩
          rw [if_pos hpos]
          simp only [List.length_cons] at h5
          rcases rest with _ | ⟨p1, rest⟩
          · simp at h5
          rcases rest with _ | ⟨p2, rest⟩
          · simp at h5
          rcases rest with _ | ⟨p3, rest⟩
          · simp at h5
          rcases rest with _ | ⟨p4, rest⟩
          · simp at h5
          rcases rest with _ | ⟨p5, rest⟩
          swap
          · simp at h5
          simp only [List.getD, List.get?_cons_succ, List.get?_cons_zero,
            Option.getD_some] at hint
          unfold checksum_srv.handle_store_command
          dsimp only
          rw [hint]
        · have hc1 : ¬(checksum_srv.beCmd = checksum_srv.beCmd ∧
              (checksum_srv.beCmd :: rest).length = 5) := fun hc => h5 hc.2
          have hc2 : ¬(checksum_srv.beCmd = checksum_srv.kiCmd ∧
              (checksum_srv.beCmd :: rest).length = 2) := fun hc =>
            absurd hc.1 (by decide)
          rw [if_neg hc1, if_neg hc2]
  refine ⟨hmain, ?_⟩
  intro now2 data2
  simp [checksum_srv.processLines, hmain]

/-- Witness for C5: the spec's example line `BE|id|notanint|3|abc` against a
store already holding an entry for `id`; the entry survives untouched and a
following well-formed `BE` succeeds. -/
theorem malformed_store_errs_and_preserves_store_witness :
    checksum_srv.process_data [(['i', 'd'], ⟨9, ['x']⟩)] 0
        ("BE|id|notanint|3|abc".toList)
      = ([(['i', 'd'], ⟨9, ['x']⟩)], checksum_srv.errResp) ∧
    ∀ (now2 : ℚ) (data2 : PyStr),
      checksum_srv.processLines [(['i', 'd'], ⟨9, ['x']⟩)]
          [(0, "BE|id|notanint|3|abc".toList), (now2, data2)]
        = ((checksum_srv.process_data [(['i', 'd'], ⟨9, ['x']⟩)] now2 data2).1,
          [checksum_srv.errResp,
           (checksum_srv.process_data [(['i', 'd'], ⟨9, ['x']⟩)] now2 data2).2]) :=
  malformed_store_errs_and_preserves_store [(['i', 'd'], ⟨9, ['x']⟩)] 0
    ("BE|id|notanint|3|abc".toList) (by decide) (Or.inr (by decide))

/-- C7: every run of `transfer_file` produces a prefix of the canonical
effect sequence digest → stream → close → register (so the digest is
computed before any byte is streamed and the registry is contacted only
after the full stream has been sent and the sending socket closed), the
registry is contacted only when `send_file` succeeded, and when sending
fails the `BE` command is never issued. -/
theorem transfer_file_effect_order (m : Option PyStr) (s r : Bool) :
    (∃ rest, (netcopy_cli.transfer_file m s r).1 ++ rest
        = netcopy_cli.senderFullTrace m) ∧
    (netcopy_cli.SendEvent.registryContacted ∈ (netcopy_cli.transfer_file m s r).1 →
      s = true) ∧
    (s = false →
      netcopy_cli.SendEvent.registryContacted ∉ (netcopy_cli.transfer_file m s r).1) := by
  rcases m with _ | h
  · refine ⟨⟨[], rfl⟩, ?_, ?_⟩
    · intro hmem
      exact absurd hmem (List.not_mem_nil _)
    · intro _
      exact List.not_mem_nil _
  · cases s
    · refine ⟨⟨[.bytesSent, .sendConnClosed, .registryContacted], rfl⟩, ?_, ?_⟩
      · intro hmem
        simp [netcopy_cli.transfer_file, netcopy_cli.send_file] at hmem
      · intro _ hmem
        simp [netcopy_cli.transfer_file, netcopy_cli.send_file] at hmem
    · cases r
      · exact ⟨⟨[], rfl⟩, fun _ => rfl, fun hs => by cases hs⟩
      · exact ⟨⟨[], rfl⟩, fun _ => rfl, fun hs => by cases hs⟩

/-- Witness for C7 at digest `"a"` with a failed send: the trace is a prefix
of the canonical sequence and the registry is never contacted. -/
theorem transfer_file_effect_order_witness :
    (∃ rest, (netcopy_cli.transfer_file (some ['a']) false true).1 ++ rest
        = netcopy_cli.senderFullTrace (some ['a'])) ∧
    netcopy_cli.SendEvent.registryContacted
      ∉ (netcopy_cli.transfer_file (some ['a']) false true).1 :=
  ⟨(transfer_file_effect_order (some ['a']) false true).1,
   (transfer_file_effect_order (some ['a']) false true).2.2 rfl⟩

/-- C4 counterexample: a run that fails in `receive_file` (an I/O failure)
and a run whose registry answer is `0|` (`Unavailable`) are different
verdict outcomes, yet `receive_and_validate` returns the same value `False`
for both — the `bool` result type does not distinguish them. -/
theorem receive_and_validate_conflates_outcomes_cex :
    netcopy_srv.verdictOf false (some ['2', '|', 'a', 'b']) (some ['a', 'b'])
        = netcopy_srv.Verdict.ioFailure ∧
    netcopy_srv.verdictOf true (some checksum_srv.notFoundResp) (some ['a', 'b'])
        = netcopy_srv.Verdict.unavailable ∧
    netcopy_srv.Verdict.ioFailure ≠ netcopy_srv.Verdict.unavailable ∧
    netcopy_srv.receive_and_validate false (some ['2', '|', 'a', 'b']) (some ['a', 'b'])
      = netcopy_srv.receive_and_validate true (some checksum_srv.notFoundResp)
          (some ['a', 'b']) := by
  refine ⟨by decide, by decide, by decide, by decide⟩

/-- C4 amended: the `bool` returned by `receive_and_validate` is `True`
exactly when the run's verdict is `Ok`; the three non-`Ok` outcomes
(`Unavailable`, `Corrupted`, I/O failure) all return `False` and are
distinguishable only in printed diagnostics, not in the result type. -/
theorem receive_and_validate_true_iff_ok (recvOk : Bool) (resp m : Option PyStr) :
    netcopy_srv.receive_and_validate recvOk resp m = true ↔
      netcopy_srv.verdictOf recvOk resp m = netcopy_srv.Verdict.ok := by
  cases recvOk with
  | false => simp [netcopy_srv.receive_and_validate, netcopy_srv.verdictOf]
  | true =>
    rcases resp with _ | data
    · simp [netcopy_srv.receive_and_validate, netcopy_srv.verdictOf,
        netcopy_srv.get_checksum]
    · by_cases hd : data = checksum_srv.notFoundResp
      · subst hd
        have hg : netcopy_srv.get_checksum (some checksum_srv.notFoundResp) = none := by
          decide
        simp [netcopy_srv.receive_and_validate, netcopy_srv.verdictOf, hg]
      · rcases m with _ | actual
        · cases hg : netcopy_srv.get_checksum (some data) with
          | none =>
            simp [netcopy_srv.receive_and_validate, netcopy_srv.verdictOf, hd, hg]
          | some expected =>
            simp [netcopy_srv.receive_and_validate, netcopy_srv.verdictOf, hd, hg]
        · cases hg : netcopy_srv.get_checksum (some data) with
          | none =>
            simp [netcopy_srv.receive_and_validate, netcopy_srv.verdictOf, hd, hg]
          | some expected =>
            simp only [netcopy_srv.receive_and_validate, netcopy_srv.verdictOf, hd, hg,
              if_neg hd, Bool.false_eq_true, if_false]
            by_cases he : expected = actual <;>
              simp [he]

/-- Witness for the amended C4: a matching hash yields `True` and verdict
`Ok`. -/
theorem receive_and_validate_true_iff_ok_witness :
    netcopy_srv.verdictOf true (some ['2', '|', 'a', 'b']) (some ['a', 'b'])
      = netcopy_srv.Verdict.ok :=
  (receive_and_validate_true_iff_ok true (some ['2', '|', 'a', 'b'])
    (some ['a', 'b'])).mp (by decide)

/-- C10: `netcopy_srv.py` annotates `get_checksum` with `Optional[str]` but
never imports `Optional` from `typing`; annotations are evaluated eagerly
while the class body of `FileTransferServer` executes, so evaluating the
module raises `NameError` at that annotation and no receiver operation
(`receive_file`, `get_checksum`, `receive_and_validate`) is ever
defined or executable as shipped. -/
theorem netcopy_srv_module_raises_nameerror :
    netcopy_srv_module.firstUnresolvedName = some "Optional" ∧
    netcopy_srv_module.moduleEval
      = Except.error "NameError: name Optional is not defined" := by
  constructor
  · rfl
  · rfl

theorem readChunks_flatten_aux (csize : Nat) (h : csize ≠ 0) :
    ∀ (n : Nat) (content : List Nat), content.length ≤ n →
      (readChunks csize content).flatten = content := by
  intro n
  induction n with
  | zero =>
    intro content hc
    have hnil : content = [] := List.eq_nil_of_length_eq_zero (by omega)
    subst hnil
    rw [readChunks]
    simp
  | succ n ih =>
    intro content hc
    by_cases hn : content = []
    · subst hn
      rw [readChunks]
      simp
    · have hcond : ¬(content = [] ∨ csize = 0) := by
        push_neg
        exact ⟨hn, h⟩
      rw [readChunks, dif_neg hcond]
      simp only [List.flatten_cons]
      rw [ih (content.drop csize) (by
        rw [List.length_drop]
        have hpos : 0 < content.length := List.length_pos.mpr hn
        omega)]
      exact List.take_append_drop csize content

theorem readChunks_flatten (csize : Nat) (h : csize ≠ 0) (content : List Nat) :
    (readChunks csize content).flatten = content :=
  readChunks_flatten_aux csize h content.length content le_rfl

theorem foldl_update_data (chunks : List (List Nat)) (m : hashlib.MD5Hasher) :
    (chunks.foldl hashlib.update m).data = m.data ++ chunks.flatten := by
  induction chunks generalizing m with
  | nil => simp
  | cons c t ih =>
    simp only [List.foldl_cons, List.flatten_cons]
    rw [ih]
    simp [hashlib.update, List.append_assoc]

/-- C9: streaming any content through the MD5 accumulator in chunks of any
positive size yields the digest of the whole content — the chunk size is
correctness-irrelevant — and in particular the sender's `calculate_md5`
(`netcopy_cli.py`) and the receiver's `calculate_md5` (`netcopy_srv.py`)
agree on every content. -/
theorem md5_chunk_size_irrelevant (content : List Nat) (csize : Nat)
    (h : 0 < csize) :
    md5_chunked content csize = hashlib.md5Hex content ∧
    netcopy_cli.calculate_md5 content = netcopy_srv.calculate_md5 content := by
  have key : ∀ cs : Nat, cs ≠ 0 → md5_chunked content cs = hashlib.md5Hex content := by
    intro cs hcs
    unfold md5_chunked hashlib.hexdigest
    rw [foldl_update_data, readChunks_flatten cs hcs content]
    rfl
  refine ⟨key csize (by omega), ?_⟩
  unfold netcopy_cli.calculate_md5 netcopy_srv.calculate_md5
  rw [key netcopy_cli.CHUNK_SIZE (by decide), key netcopy_srv.CHUNK_SIZE (by decide)]

/-- Witness for C9 at content `[0, 1, 2]` and chunk size `2`. -/
theorem md5_chunk_size_irrelevant_witness :
    md5_chunked [0, 1, 2] 2 = hashlib.md5Hex [0, 1, 2] ∧
    netcopy_cli.calculate_md5 [0, 1, 2] = netcopy_srv.calculate_md5 [0, 1, 2] :=
  md5_chunk_size_irrelevant [0, 1, 2] 2 (by norm_num)

theorem natToDigits_no_newline (n : Nat) : ('\n' : Char) ∉ natToDigits n := by
  intro hc
  have h := mem_natToDigits_digit hc
  have h10 : ('\n' : Char).toNat = 10 := rfl
  omega

theorem checksum_srv.dictGet_mem {st : checksum_srv.ChecksumStore} {k : PyStr}
    {v : checksum_srv.StoreEntry} (h : checksum_srv.dictGet st k = some v) :
    (k, v) ∈ st := by
  induction st with
  | nil => simp [checksum_srv.dictGet] at h
  | cons p rest ih =>
    obtain ⟨k', v'⟩ := p
    by_cases hk : k' = k
    · subst hk
      simp [checksum_srv.dictGet] at h
      subst h
      exact List.mem_cons_self _ _
    · simp only [checksum_srv.dictGet, if_neg hk] at h
      exact List.mem_cons_of_mem _ (ih h)

/-- C8 amended: for every decoded input line (any string), `process_data` is
total and returns exactly one of `OK`, `ERR`, or `<int>|<string>` — never
empty — and when the line and all stored checksums are newline-free the
response is a single line and the store stays newline-free.  A byte line
that is NOT valid UTF-8, however, never reaches `process_data`: `decode()`
raises in `_handle_client_data`, whose handler closes the connection without
sending any response (not even `ERR`). -/
theorem process_data_total_response_shape
    (store : checksum_srv.ChecksumStore) (now : ℚ) (s : PyStr) :
    ((checksum_srv.process_data store now s).2 = checksum_srv.okResp ∨
      (checksum_srv.process_data store now s).2 = checksum_srv.errResp ∨
      ∃ n cs, (checksum_srv.process_data store now s).2 = natToDigits n ++ '|' :: cs) ∧
    (checksum_srv.process_data store now s).2 ≠ [] ∧
    (('\n' : Char) ∉ s →
      (∀ p ∈ store, ('\n' : Char) ∉ p.2.checksum) →
      ('\n' : Char) ∉ (checksum_srv.process_data store now s).2 ∧
        ∀ p ∈ (checksum_srv.process_data store now s).1,
          ('\n' : Char) ∉ p.2.checksum) ∧
    (∀ bs : List Nat, checksum_srv.decodeUtf8 bs = none →
      checksum_srv.handle_line store now bs = none) := by
  have hline : ∀ bs : List Nat, checksum_srv.decodeUtf8 bs = none →
      checksum_srv.handle_line store now bs = none := by
    intro bs hbs
    unfold checksum_srv.handle_line
    rw [hbs]
    rfl
  have key :
      ((checksum_srv.process_data store now s).2 = checksum_srv.okResp ∨
        (checksum_srv.process_data store now s).2 = checksum_srv.errResp ∨
        ∃ n cs, (checksum_srv.process_data store now s).2
          = natToDigits n ++ '|' :: cs) ∧
      (checksum_srv.process_data store now s).2 ≠ [] ∧
      (('\n' : Char) ∉ s →
        (∀ p ∈ store, ('\n' : Char) ∉ p.2.checksum) →
        ('\n' : Char) ∉ (checksum_srv.process_data store now s).2 ∧
          ∀ p ∈ (checksum_srv.process_data store now s).1,
            ('\n' : Char) ∉ p.2.checksum) := by
    unfold checksum_srv.process_data
    cases hsp : splitPipe (strip s) with
    | nil => exact absurd hsp (splitPipe_ne_nil _)
    | cons c rest =>
      dsimp only
      by_cases h1 : c = checksum_srv.beCmd ∧ (c :: rest).length = 5
      · rw [if_pos h1]
        obtain ⟨hcbe, h5⟩ := h1
        simp only [List.length_cons] at h5
        rcases rest with _ | ⟨p1, rest⟩
        · simp at h5
        rcases rest with _ | ⟨p2, rest⟩
        · simp at h5
        rcases rest with _ | ⟨p3, rest⟩
        · simp at h5
        rcases rest with _ | ⟨p4, rest⟩
        · simp at h5
        rcases rest with _ | ⟨p5, rest⟩
        swap
        · simp at h5
        unfold checksum_srv.handle_store_command
        dsimp only
        cases hti : toIntOpt p2 with
        | none =>
          dsimp only
          exact ⟨Or.inr (Or.inl rfl), by decide, fun hs hst => ⟨by decide, hst⟩⟩
        | some ttl =>
          dsimp only
          refine ⟨Or.inl rfl, by decide, fun hs hst => ⟨by decide, fun p hp => ?_⟩⟩
          rcases checksum_srv.mem_dictSet hp with hp | hp
          · exact hst p hp
          · subst hp
            dsimp only
            intro hc
            refine hs (mem_strip (mem_of_mem_splitPipe ?_ hc))
            rw [hsp]
            simp
      · rw [if_neg h1]
        by_cases h2 : c = checksum_srv.kiCmd ∧ (c :: rest).length = 2
        · rw [if_pos h2]
          obtain ⟨hcki, hl2⟩ := h2
          simp only [List.length_cons] at hl2
          rcases rest with _ | ⟨p1, rest⟩
          · simp at hl2
          rcases rest with _ | ⟨p2, rest⟩
          swap
          · simp at hl2
          unfold checksum_srv.handle_retrieve_command
          dsimp only
          cases hg : checksum_srv.dictGet store p1 with
          | none =>
            dsimp only
            exact ⟨Or.inr (Or.inr ⟨0, [], rfl⟩), by decide,
              fun hs hst => ⟨by decide, hst⟩⟩
          | some entry =>
            dsimp only
            by_cases hexp : now > entry.expiry
            · rw [if_pos hexp]
              dsimp only
              exact ⟨Or.inr (Or.inr ⟨0, [], rfl⟩), by decide, fun hs hst =>
                ⟨by decide, fun p hp => hst p (checksum_srv.mem_dictPop hp)⟩⟩
            · rw [if_neg hexp]
              refine ⟨Or.inr (Or.inr ⟨entry.checksum.length, entry.checksum, rfl⟩),
                by simp, fun hs hst => ⟨?_, hst⟩⟩
              intro hc
              rcases List.mem_append.mp hc with hc | hc
              · exact natToDigits_no_newline _ hc
              · rcases List.mem_cons.mp hc with hc | hc
                · exact absurd hc (by decide)
                · exact hst (p1, entry) (checksum_srv.dictGet_mem hg) hc
        · rw [if_neg h2]
          dsimp only
          exact ⟨Or.inr (Or.inl rfl), by decide, fun hs hst => ⟨by decide, hst⟩⟩
  exact ⟨key.1, key.2.1, key.2.2, hline⟩

/-- Witness for the amended C8 on the line `KI|missing` against the empty
store, and on the undecodable byte line `[0xff]`. -/
theorem process_data_total_response_shape_witness :
    ((checksum_srv.process_data [] 0 ("KI|missing".toList)).2 = checksum_srv.okResp ∨
      (checksum_srv.process_data [] 0 ("KI|missing".toList)).2 = checksum_srv.errResp ∨
      ∃ n cs, (checksum_srv.process_data [] 0 ("KI|missing".toList)).2
        = natToDigits n ++ '|' :: cs) ∧
    ('\n' : Char) ∉ (checksum_srv.process_data [] 0 ("KI|missing".toList)).2 ∧
    checksum_srv.handle_line [] 0 [255] = none := by
  have h := process_data_total_response_shape [] 0 ("KI|missing".toList)
  exact ⟨h.1, (h.2.2.1 (by decide) (by intro p hp; simp at hp)).1,
    h.2.2.2 [255] (by decide)⟩

/-- C8 counterexample: the single-byte line `0xff` is not valid UTF-8;
`line.decode()` raises `UnicodeDecodeError` inside `_handle_client_data`
(outside `process_data`), the handler catches it and closes the connection,
so the line produces NO response at all — the claim that any byte string
degrades to `ERR` fails here. -/
theorem undecodable_line_no_response_cex :
    checksum_srv.handle_line [] 0 [255] = none ∧
    ∀ (st : checksum_srv.ChecksumStore) (r : PyStr),
      checksum_srv.handle_line [] 0 [255] ≠ some (st, r) := by
  refine ⟨by decide, fun st r h => ?_⟩
  rw [(by decide : checksum_srv.handle_line [] 0 [255] = none)] at h
  exact Option.noConfusion h
